import Mathlib

/-!
# AFL GCC instrumentation pass (`gcc_plugin/afl-gcc-pass.so.cc`)

A shallow embedding of `afl_pass::execute` and `plugin_init`.

* The function body handed over by GCC is a chain of basic blocks, each
  holding a sequence of statements.  Statements of the compiled program are
  values of an arbitrary type `σ`; the only statement the pass builds itself
  is a call.
* The process-wide state (`be_quiet`, `inst_ratio`, `inst_blocks`) is passed
  explicitly, and so is the position in the stream of `random()` outputs.
* `FATAL` aborts the process: it is the `error` case of `Except`.
-/

namespace AflGccPass

/-! ## Trees and statements -/

/-- The three type nodes the pass mentions. -/
inductive type_node
  | void_type_node
  | uint16_type_node
  | uint64_type_node
deriving DecidableEq, Repr

/-- An integer constant tree, as built by `build_int_cst (type, value)`. -/
structure int_cst where
  type : type_node
  value : Nat
deriving DecidableEq, Repr

/-- A function type, as built by `build_function_type_list (ret, args..., NULL_TREE)`. -/
structure function_type where
  ret : type_node
  args : List type_node
deriving DecidableEq, Repr

/-- A function declaration with the four flags the pass sets on it. -/
structure fn_decl where
  name : String
  fntype : function_type
  TREE_STATIC : Bool
  TREE_PUBLIC : Bool
  DECL_EXTERNAL : Bool
  DECL_ARTIFICIAL : Bool
deriving DecidableEq, Repr

/-- A statement of a block: a call built by `gimple_build_call`, or a statement
of the compiled program (kept abstract). -/
inductive gimple (σ : Type)
  | call (fndecl : fn_decl) (args : List int_cst)
  | stmt (s : σ)
deriving DecidableEq, Repr

/-- A basic block: its index, its edges, and its statement sequence. -/
structure basic_block (σ : Type) where
  index : Nat
  preds : List Nat
  succs : List Nat
  stmts : List (gimple σ)
deriving DecidableEq, Repr

/-- A function body: the entry block, the chain of blocks that
`FOR_EACH_BB_FN` walks (from `ENTRY_BLOCK->next_bb` up to the exit block), and
the exit block. -/
structure function (σ : Type) where
  ENTRY_BLOCK : basic_block σ
  blocks : List (basic_block σ)
  EXIT_BLOCK : basic_block σ
deriving DecidableEq, Repr

/-- A statement iterator: a block and a position in its statement sequence. -/
structure gimple_stmt_iterator (σ : Type) where
  bb : basic_block σ
  ptr : Nat

def build_int_cst (type : type_node) (value : Nat) : int_cst :=
  { type := type, value := value }

def build_function_type_list (ret : type_node) (args : List type_node) : function_type :=
  { ret := ret, args := args }

/-- A fresh declaration as `build_fn_decl (name, type)` returns it, with the
four flags the pass assigns afterwards still clear. -/
def build_fn_decl (name : String) (fntype : function_type) : fn_decl :=
  { name := name, fntype := fntype, TREE_STATIC := false, TREE_PUBLIC := false,
    DECL_EXTERNAL := false, DECL_ARTIFICIAL := false }

/-- In `gimple_build_call (fn, nargs, ...)` the first `nargs` variadic arguments
are the arguments of the call. -/
def gimple_build_call {σ : Type} (fndecl : fn_decl) (nargs : Nat) (va : List int_cst) : gimple σ :=
  gimple.call fndecl (va.take nargs)

/-- Appending one statement at the end of a sequence, `gimple_seq_add_stmt (&seq, g)`. -/
def gimple_seq_add_stmt {σ : Type} (seq : List (gimple σ)) (g : gimple σ) : List (gimple σ) :=
  seq ++ [g]

/-- The iterator at the first statement of the block, `gsi_start_bb (bb)`. -/
def gsi_start_bb {σ : Type} (bb : basic_block σ) : gimple_stmt_iterator σ :=
  { bb := bb, ptr := 0 }

/-- Inserting a sequence before the iterator position,
`gsi_insert_seq_before (&i, seq, GSI_SAME_STMT)`: the block after the insertion. -/
def gsi_insert_seq_before {σ : Type} (i : gimple_stmt_iterator σ) (seq : List (gimple σ)) :
    basic_block σ :=
  { i.bb with stmts := i.bb.stmts.take i.ptr ++ seq ++ i.bb.stmts.drop i.ptr }

/-! ## Process-wide state, environment, generator -/

/-- The three file-scope variables of the pass. -/
structure Globals where
  be_quiet : Int
  inst_ratio : Nat
  inst_blocks : Int
deriving DecidableEq, Repr

/-- The static initialisers: `be_quiet = 0`, `inst_ratio = 100`, `inst_blocks = 0`. -/
def Globals.start : Globals :=
  { be_quiet := 0, inst_ratio := 100, inst_blocks := 0 }

/-- What the pass reads from its surroundings: the environment variables
`AFL_QUIET`, `AFL_INST_RATIO` (the field `inst_ratio_str`, as the variable that
holds `getenv("AFL_INST_RATIO")` is called) and `AFL_HARDEN`, each `none` when
unset; `isatty(2)`; and the outcome of `plugin_default_version_check`. -/
structure Env where
  AFL_QUIET : Option String
  inst_ratio_str : Option String
  AFL_HARDEN : Option String
  isatty2 : Bool
  version_check : Bool

/-- The two constants of `config.h` the pass uses; `config.h` is not part of
the sources at hand, so they are parameters. -/
structure Config where
  MAP_SIZE : Nat
  VERSION : String

/-- The diagnostics of `debug.h`, by kind, with the formatted text. -/
inductive Msg
  | SAYF (text : String)
  | WARNF (text : String)
  | OKF (text : String)
deriving DecidableEq, Repr

/-- One call of `random()`: the stream of outputs is `rnd`, the state is the
position in it. -/
def random (rnd : Nat → Nat) (pos : Nat) : Nat × Nat :=
  (rnd pos, pos + 1)

/-- Modelled from the spec: the macro `R` of `config.h` (not among the sources),
which the spec describes as drawing one sample from the process-wide generator,
"yield uniform integer in [0, bound)"; it is `random() % bound`. -/
def R (rnd : Nat → Nat) (pos : Nat) (bound : Nat) : Nat × Nat :=
  ((random rnd pos).1 % bound, (random rnd pos).2)

/-- Conversion of a value to `unsigned int`. -/
def to_u32 (n : Nat) : Nat := n % 2 ^ 32

/-- The value of an `int` expression after wrap-around to 32 bits. -/
def to_i32 (x : Int) : Int := (x + 2 ^ 31) % 2 ^ 32 - 2 ^ 31

/-- An `int` printed with `%u`. -/
def fmt_u_int (x : Int) : String := Nat.repr (x % 2 ^ 32).toNat

/-- An `unsigned int` printed with `%u`. -/
def fmt_u (n : Nat) : String := Nat.repr n

/-! ## `afl_pass::execute` -/

/-- The state the block loop threads: the globals and the generator position. -/
structure PassState where
  globals : Globals
  pos : Nat
deriving DecidableEq, Repr

/-- The declaration of `__afl_trace` the loop body builds: type
`void (uint16)`, then the four flags set to 1. -/
def afl_trace_decl : fn_decl :=
  let fntype := build_function_type_list type_node.void_type_node [type_node.uint16_type_node]
  let fndecl := build_fn_decl "__afl_trace" fntype
  { fndecl with TREE_STATIC := true, TREE_PUBLIC := true, DECL_EXTERNAL := true,
                DECL_ARTIFICIAL := true }

/-- The body of the `FOR_EACH_BB_FN` loop of `execute`, for one block. -/
def instrument_bb {σ : Type} (cfg : Config) (rnd : Nat → Nat) (bb : basic_block σ)
    (st : PassState) : basic_block σ × PassState :=
  let seq : List (gimple σ) := []
  let sample := R rnd st.pos 100
  if sample.1 ≥ st.globals.inst_ratio then
    (bb, { st with pos := sample.2 })
  else
    let loc := R rnd sample.2 cfg.MAP_SIZE
    let rand_loc := to_u32 loc.1
    let cur_loc := build_int_cst type_node.uint64_type_node rand_loc
    let fndecl := afl_trace_decl
    let g : gimple σ := gimple_build_call fndecl 1 [cur_loc]
    let seq := gimple_seq_add_stmt seq g
    let bentry := gsi_start_bb bb
    let bb2 := gsi_insert_seq_before bentry seq
    (bb2, { globals := { st.globals with inst_blocks := to_i32 (st.globals.inst_blocks + 1) },
            pos := loc.2 })

/-- The loop `FOR_EACH_BB_FN (bb, fun) { ... }`: the body runs on each block of
the chain in order. -/
def FOR_EACH_BB_FN {σ : Type} (body : basic_block σ → PassState → basic_block σ × PassState) :
    List (basic_block σ) → PassState → List (basic_block σ) × PassState
  | [], st => ([], st)
  | bb :: rest, st =>
    let r := body bb st
    let rs := FOR_EACH_BB_FN body rest r.2
    (r.1 :: rs.1, rs.2)

/-- The closing report of `execute` ("Say something nice."). -/
def report (env : Env) (g : Globals) : List Msg :=
  if g.be_quiet = 0 then
    if g.inst_blocks = 0 then [Msg.WARNF "No instrumentation targets found."]
    else [Msg.OKF ("Instrumented " ++ fmt_u_int g.inst_blocks ++ " locations (" ++
            (if env.AFL_HARDEN.isSome then "hardened" else "non-hardened") ++
            " mode, ratio " ++ fmt_u g.inst_ratio ++ "%).")]
  else []

/-- What one run of `execute` leaves behind. -/
structure ExecResult (σ : Type) where
  ret : Nat
  fn : function σ
  state : PassState
  out : List Msg

/-- The method `afl_pass::execute (function *fun)`. -/
def execute {σ : Type} (cfg : Config) (env : Env) (rnd : Nat → Nat) (fn : function σ)
    (st : PassState) : ExecResult σ :=
  let r := FOR_EACH_BB_FN (instrument_bb cfg rnd) fn.blocks st
  { ret := 0
    fn := { fn with blocks := r.1 }
    state := r.2
    out := report env r.2.globals }

/-! ## `plugin_init` -/

deriving instance DecidableEq for Except

/-- The white-space characters (`isspace` in the C locale): space and the
controls 9 to 13. -/
def isspace (c : Char) : Bool :=
  decide (c.toNat = 32) || (decide (9 ≤ c.toNat) && decide (c.toNat ≤ 13))

/-- The decimal digits. -/
def isdigit (c : Char) : Bool :=
  decide (48 ≤ c.toNat) && decide (c.toNat ≤ 57)

/-- The number a sequence of decimal digits denotes. -/
def digits_value (ds : List Char) : Nat :=
  ds.foldl (fun acc c => 10 * acc + (c.toNat - 48)) 0

/-- The `unsigned long` (64 bits) that `strtoul` yields for a sign and the
digits read: saturated at `ULONG_MAX` when the digits overflow, negated in the
unsigned type after a minus sign. -/
def strtoul_value (neg : Bool) (n : Nat) : Nat :=
  if 2 ^ 64 ≤ n then 2 ^ 64 - 1
  else if neg then (2 ^ 64 - n) % 2 ^ 64
  else n

/-- The call `sscanf (str, "%u", &dst)`: the value returned and the value of
`dst` afterwards.  White space is skipped; input ending there is `EOF` (-1);
then an optional sign and the longest run of decimal digits are read; no digit
is a matching failure (0); otherwise the number is stored as an `unsigned int`
and the call returns 1.  What follows the digits is not looked at. -/
def sscanf_u (str : String) (dst : Nat) : Int × Nat :=
  match str.toList.dropWhile isspace with
  | [] => (-1, dst)
  | c :: rest =>
    let neg := decide (c = '-')
    let body := if c = '-' ∨ c = '+' then rest else c :: rest
    let ds := body.takeWhile isdigit
    if ds = [] then (0, dst)
    else (1, to_u32 (strtoul_value neg (digits_value ds)))

/-- The function `plugin_init`: the version check, the banner or `be_quiet`,
and the instrumentation ratio.  The seeding of `random()` from the clock and
the process id is the choice of the stream `rnd` given to `execute`; the
registration of the callbacks changes none of the three globals. -/
def plugin_init (cfg : Config) (env : Env) (g : Globals) : Except String (Globals × List Msg) :=
  if env.version_check = false then
    Except.error "Incompatible gcc/plugin versions!"
  else
    let shown : Globals × List Msg :=
      if env.isatty2 = true ∧ env.AFL_QUIET.isNone then
        (g, [Msg.SAYF ("afl-gcc-pass " ++ cfg.VERSION ++ " by <aseipp@pobox.com>\n")])
      else ({ g with be_quiet := 1 }, [])
    match env.inst_ratio_str with
    | none => Except.ok shown
    | some str =>
      let r := sscanf_u str shown.1.inst_ratio
      if r.1 ≠ 1 ∨ r.2 = 0 ∨ r.2 > 100 then
        Except.error "Bad value of AFL_INST_RATIO (must be between 1 and 100)"
      else Except.ok ({ shown.1 with inst_ratio := r.2 }, shown.2)

/-! ## The pass descriptor -/

/-- The values of the three `TODO_*` macros of GCC's `tree-pass.h`, which is
not part of the sources at hand. -/
structure TodoFlags where
  TODO_update_ssa : Nat
  TODO_verify_all : Nat
  TODO_cleanup_cfg : Nat

/-- The fields of `pass_data` that carry to-do flags. -/
structure pass_data where
  name : String
  todo_flags_start : Nat
  todo_flags_finish : Nat

/-- The constant `my_pass_data`. -/
def my_pass_data (F : TodoFlags) : pass_data :=
  { name := "afl-inst"
    todo_flags_start := 0
    todo_flags_finish := F.TODO_update_ssa ||| F.TODO_verify_all ||| F.TODO_cleanup_cfg }

/-- A flags word has the flag `f` set. -/
def has_flag (word f : Nat) : Prop := word &&& f = f

instance (word f : Nat) : Decidable (has_flag word f) := by
  unfold has_flag; infer_instance

/-! ## Notions used to state the properties -/

/-- The tracing call with location identifier `loc`, as the loop body builds it. -/
def trace_call {σ : Type} (loc : Nat) : gimple σ :=
  gimple.call afl_trace_decl [build_int_cst type_node.uint64_type_node loc]

/-- The block `bb` with the tracing call for `loc` put before its statements. -/
def with_call {σ : Type} (bb : basic_block σ) (loc : Nat) : basic_block σ :=
  { bb with stmts := trace_call loc :: bb.stmts }

/-- The state of the pass when the loop reaches block number `i` of the chain:
the state after the body has run on the `i` blocks before it. -/
def state_at {σ : Type} (cfg : Config) (rnd : Nat → Nat) (blocks : List (basic_block σ))
    (st : PassState) (i : Nat) : PassState :=
  (FOR_EACH_BB_FN (instrument_bb cfg rnd) (blocks.take i) st).2

/-- The sample `R(100)` drawn for block number `i`. -/
def sample_at {σ : Type} (cfg : Config) (rnd : Nat → Nat) (blocks : List (basic_block σ))
    (st : PassState) (i : Nat) : Nat :=
  (R rnd (state_at cfg rnd blocks st i).pos 100).1

/-- The number of statements by which the blocks of `after` are longer than the
blocks of `before` at the same place: the number of statements added. -/
def calls_added {σ : Type} : List (basic_block σ) → List (basic_block σ) → Nat
  | b :: bs, a :: as => (a.stmts.length - b.stmts.length) + calls_added bs as
  | _, _ => 0

/-- The host running the pass on the functions of a translation unit, one after
the other, on the same process-wide state. -/
def execute_all {σ : Type} (cfg : Config) (env : Env) (rnd : Nat → Nat) :
    List (function σ) → PassState → List (ExecResult σ) × PassState
  | [], st => ([], st)
  | fn :: rest, st =>
    let r := execute cfg env rnd fn st
    let rs := execute_all cfg env rnd rest r.state
    (r :: rs.1, rs.2)

/-- The statements added over a whole run of `execute_all`. -/
def total_added {σ : Type} : List (function σ) → List (ExecResult σ) → Nat
  | fn :: fns, r :: rs => calls_added fn.blocks r.fn.blocks + total_added fns rs
  | _, _ => 0

/-! ## Concrete inputs -/

/-- The constants of AFL's `config.h`: a map of 65536 slots. -/
def demo_cfg : Config := { MAP_SIZE := 65536, VERSION := "2.52b" }

/-- An interactive compilation with no AFL variable set. -/
def demo_env : Env :=
  { AFL_QUIET := none, inst_ratio_str := none, AFL_HARDEN := none, isatty2 := true,
    version_check := true }

/-- The same with `AFL_INST_RATIO` set to the given string. -/
def ratio_env (s : String) : Env := { demo_env with inst_ratio_str := some s }

/-- A stream of generator outputs: 99, 106, 113, ... -/
def demo_rnd : Nat → Nat := fun i => 7 * i + 99

/-- A stream of generator outputs: 150, 264, 378, ... (samples 50, 64, 78, ...). -/
def sparse_rnd : Nat → Nat := fun i => 114 * i + 150

/-- A block with the given index, successor and statements. -/
def demo_bb (index succ : Nat) (stmts : List Nat) : basic_block Nat :=
  { index := index, preds := [index - 1], succs := [succ], stmts := stmts.map gimple.stmt }

/-- A function of four blocks (one of them empty) between entry and exit. -/
def demo_fn : function Nat :=
  { ENTRY_BLOCK := { index := 0, preds := [], succs := [2], stmts := [] }
    blocks := [demo_bb 2 3 [10, 11], demo_bb 3 4 [], demo_bb 4 5 [12], demo_bb 5 1 [13, 14, 15]]
    EXIT_BLOCK := { index := 1, preds := [5], succs := [], stmts := [] } }

/-- A function with no block between entry and exit. -/
def empty_fn : function Nat :=
  { ENTRY_BLOCK := { index := 0, preds := [], succs := [1], stmts := [] }
    blocks := []
    EXIT_BLOCK := { index := 1, preds := [0], succs := [], stmts := [] } }

/-- The state of a fresh process: the static initialisers, the generator
stream at its start. -/
def demo_start : PassState := { globals := Globals.start, pos := 0 }

/-- The state of a process in which `AFL_INST_RATIO=60` was accepted. -/
def ratio60_start : PassState :=
  { globals := { be_quiet := 0, inst_ratio := 60, inst_blocks := 0 }, pos := 0 }

/-- The state of a process in which `AFL_INST_RATIO=1` was accepted. -/
def ratio1_start : PassState :=
  { globals := { be_quiet := 0, inst_ratio := 1, inst_blocks := 0 }, pos := 0 }

/-- Values for the three flags: bits 11, 6 and 5, as in the `tree-pass.h` of
GCC 5. -/
def gcc_flags : TodoFlags :=
  { TODO_update_ssa := 2048, TODO_verify_all := 64, TODO_cleanup_cfg := 32 }

/-! ## The loop body and the loop -/

section Loop

variable {σ : Type}

/-- The block the body leaves when it instruments: the call, then the
statements that were there. -/
theorem insert_at_start (bb : basic_block σ) (g : gimple σ) :
    gsi_insert_seq_before (gsi_start_bb bb) (gimple_seq_add_stmt [] g) =
      { bb with stmts := g :: bb.stmts } := by
  simp [gsi_insert_seq_before, gsi_start_bb, gimple_seq_add_stmt]

/-- The body on a block whose sample reaches the ratio: nothing but the
generator position changes. -/
theorem instrument_bb_skip (cfg : Config) (rnd : Nat → Nat) (bb : basic_block σ) (st : PassState)
    (h : st.globals.inst_ratio ≤ rnd st.pos % 100) :
    instrument_bb cfg rnd bb st = (bb, { st with pos := st.pos + 1 }) := by
  simp [instrument_bb, R, random, h]

/-- The body on a block whose sample is below the ratio. -/
theorem instrument_bb_hit (cfg : Config) (rnd : Nat → Nat) (bb : basic_block σ) (st : PassState)
    (h : rnd st.pos % 100 < st.globals.inst_ratio) :
    instrument_bb cfg rnd bb st =
      (with_call bb (to_u32 (rnd (st.pos + 1) % cfg.MAP_SIZE)),
       { globals := { st.globals with inst_blocks := to_i32 (st.globals.inst_blocks + 1) },
         pos := st.pos + 2 }) := by
  have h2 : ¬ st.globals.inst_ratio ≤ rnd st.pos % 100 := Nat.not_le.mpr h
  simp [instrument_bb, R, random, h2, insert_at_start, trace_call, gimple_build_call, with_call]

theorem loop_nil (body : basic_block σ → PassState → basic_block σ × PassState) (st : PassState) :
    FOR_EACH_BB_FN body [] st = ([], st) := rfl

theorem loop_cons (body : basic_block σ → PassState → basic_block σ × PassState)
    (bb : basic_block σ) (rest : List (basic_block σ)) (st : PassState) :
    FOR_EACH_BB_FN body (bb :: rest) st =
      ((body bb st).1 :: (FOR_EACH_BB_FN body rest (body bb st).2).1,
       (FOR_EACH_BB_FN body rest (body bb st).2).2) := rfl

theorem loop_length (body : basic_block σ → PassState → basic_block σ × PassState)
    (blocks : List (basic_block σ)) (st : PassState) :
    (FOR_EACH_BB_FN body blocks st).1.length = blocks.length := by
  induction blocks generalizing st with
  | nil => rfl
  | cons bb rest ih => simp [loop_cons, ih]

/-- Block number `i` of the result is what the body makes of block number `i`
in the state reached after the blocks before it. -/
theorem loop_get (body : basic_block σ → PassState → basic_block σ × PassState)
    (blocks : List (basic_block σ)) (st : PassState) (i : Nat) (bb : basic_block σ)
    (h : blocks[i]? = some bb) :
    (FOR_EACH_BB_FN body blocks st).1[i]? =
      some (body bb (FOR_EACH_BB_FN body (blocks.take i) st).2).1 := by
  induction blocks generalizing st i with
  | nil => simp at h
  | cons b rest ih =>
    cases i with
    | zero =>
      simp at h
      subst h
      simp [loop_cons, loop_nil]
    | succ j =>
      simp at h
      simp [loop_cons, ih _ j h]

/-- The state after `i + 1` blocks is what the body makes of the state after `i`. -/
theorem loop_state_succ (body : basic_block σ → PassState → basic_block σ × PassState)
    (blocks : List (basic_block σ)) (st : PassState) (i : Nat) (bb : basic_block σ)
    (h : blocks[i]? = some bb) :
    (FOR_EACH_BB_FN body (blocks.take (i + 1)) st).2 =
      (body bb (FOR_EACH_BB_FN body (blocks.take i) st).2).2 := by
  induction blocks generalizing st i with
  | nil => simp at h
  | cons b rest ih =>
    cases i with
    | zero =>
      simp at h
      subst h
      simp [loop_cons, loop_nil]
    | succ j =>
      simp at h
      simp [loop_cons, ih _ j h]

/-- The loop changes neither `be_quiet` nor `inst_ratio`. -/
theorem loop_config (cfg : Config) (rnd : Nat → Nat) (blocks : List (basic_block σ))
    (st : PassState) :
    (FOR_EACH_BB_FN (instrument_bb cfg rnd) blocks st).2.globals.be_quiet = st.globals.be_quiet ∧
    (FOR_EACH_BB_FN (instrument_bb cfg rnd) blocks st).2.globals.inst_ratio =
      st.globals.inst_ratio := by
  induction blocks generalizing st with
  | nil => simp [loop_nil]
  | cons bb rest ih =>
    rw [loop_cons]
    rcases Nat.lt_or_ge (rnd st.pos % 100) st.globals.inst_ratio with h | h
    · rw [instrument_bb_hit cfg rnd bb st h]
      exact ih _
    · rw [instrument_bb_skip cfg rnd bb st h]
      exact ih _

end Loop

/-! ## Selection and insertion -/

section Selection

variable {σ : Type}

/-- At ratio 100 the loop instruments every block; block number `i` gets the
identifier drawn at generator position `pos + 2 * i + 1`. -/
theorem loop_ratio_100 (cfg : Config) (rnd : Nat → Nat) (blocks : List (basic_block σ))
    (st : PassState) (h : st.globals.inst_ratio = 100) :
    calls_added blocks (FOR_EACH_BB_FN (instrument_bb cfg rnd) blocks st).1 = blocks.length ∧
    ∀ (i : Nat) (bb : basic_block σ), blocks[i]? = some bb →
      (FOR_EACH_BB_FN (instrument_bb cfg rnd) blocks st).1[i]? =
        some (with_call bb (to_u32 (rnd (st.pos + 2 * i + 1) % cfg.MAP_SIZE))) := by
  induction blocks generalizing st with
  | nil => simp [loop_nil, calls_added]
  | cons b rest ih =>
    have hlt : rnd st.pos % 100 < st.globals.inst_ratio := by
      rw [h]; exact Nat.mod_lt _ (by decide)
    rw [loop_cons, instrument_bb_hit cfg rnd b st hlt]
    have ih2 := ih { globals := { st.globals with
      inst_blocks := to_i32 (st.globals.inst_blocks + 1) }, pos := st.pos + 2 } h
    refine ⟨?_, ?_⟩
    · simp only [calls_added, List.length_cons, with_call]
      rw [ih2.1]
      omega
    · intro i bb hi
      cases i with
      | zero =>
        simp at hi
        subst hi
        simp
      | succ j =>
        simp at hi
        have e : st.pos + 2 * (j + 1) + 1 = st.pos + 2 + 2 * j + 1 := by omega
        simp only [List.getElem?_cons_succ]
        rw [e]
        exact ih2.2 j bb hi

/-- What the pass does to block number `i` is decided by the sample drawn in
the state in which the loop reaches it. -/
theorem block_outcome (cfg : Config) (env : Env) (rnd : Nat → Nat) (fn : function σ)
    (st : PassState) (i : Nat) (bb : basic_block σ) (h : fn.blocks[i]? = some bb) :
    (sample_at cfg rnd fn.blocks st i < 100) ∧
    (st.globals.inst_ratio ≤ sample_at cfg rnd fn.blocks st i →
      (execute cfg env rnd fn st).fn.blocks[i]? = some bb ∧
      (state_at cfg rnd fn.blocks st (i + 1)).pos = (state_at cfg rnd fn.blocks st i).pos + 1) ∧
    (sample_at cfg rnd fn.blocks st i < st.globals.inst_ratio →
      (execute cfg env rnd fn st).fn.blocks[i]? = some (with_call bb
        (to_u32 (rnd ((state_at cfg rnd fn.blocks st i).pos + 1) % cfg.MAP_SIZE))) ∧
      (state_at cfg rnd fn.blocks st (i + 1)).pos = (state_at cfg rnd fn.blocks st i).pos + 2) := by
  have hg := loop_get (instrument_bb cfg rnd) fn.blocks st i bb h
  have hs := loop_state_succ (instrument_bb cfg rnd) fn.blocks st i bb h
  have hr := (loop_config cfg rnd (fn.blocks.take i) st).2
  refine ⟨?_, ?_, ?_⟩
  · simp only [sample_at, R, random]
    exact Nat.mod_lt _ (by decide)
  · intro hge
    simp only [sample_at, R, random, state_at] at hge
    rw [← hr] at hge
    simp only [execute, state_at]
    rw [hg, hs, instrument_bb_skip cfg rnd bb _ hge]
    exact ⟨rfl, rfl⟩
  · intro hlt
    simp only [sample_at, R, random, state_at] at hlt
    rw [← hr] at hlt
    simp only [execute, state_at]
    rw [hg, hs, instrument_bb_hit cfg rnd bb _ hlt]
    exact ⟨rfl, rfl⟩

end Selection

/-! ## Coverage, selection, frame, identifier range -/

section Claims

variable {σ : Type}

theorem with_call_ne (bb : basic_block σ) (loc : Nat) : with_call bb loc ≠ bb := by
  intro h
  have hl : (with_call bb loc).stmts.length = bb.stmts.length := by rw [h]
  simp [with_call] at hl

/-- The body leaves the block as it was or puts one tracing call before it. -/
theorem instrument_bb_cases (cfg : Config) (rnd : Nat → Nat) (bb : basic_block σ)
    (st : PassState) :
    (instrument_bb cfg rnd bb st).1 = bb ∨
    (instrument_bb cfg rnd bb st).1 = with_call bb (to_u32 (rnd (st.pos + 1) % cfg.MAP_SIZE)) := by
  rcases Nat.lt_or_ge (rnd st.pos % 100) st.globals.inst_ratio with h | h
  · right; rw [instrument_bb_hit cfg rnd bb st h]
  · left; rw [instrument_bb_skip cfg rnd bb st h]

/-- C1 (coverage completeness at ratio 100).  For every function, every stream
of generator outputs and every state with `inst_ratio = 100`, `execute` keeps
the number N of blocks, adds exactly N statements, and block number `i` of the
result is block number `i` of the function with one tracing call put before
its first statement (the call carries the identifier drawn at generator
position `pos + 2 * i + 1`). -/
theorem coverage_complete_at_ratio_100 (cfg : Config) (env : Env) (rnd : Nat → Nat)
    (fn : function σ) (st : PassState) (h : st.globals.inst_ratio = 100) :
    (execute cfg env rnd fn st).fn.blocks.length = fn.blocks.length ∧
    calls_added fn.blocks (execute cfg env rnd fn st).fn.blocks = fn.blocks.length ∧
    ∀ (i : Nat) (bb : basic_block σ), fn.blocks[i]? = some bb →
      (execute cfg env rnd fn st).fn.blocks[i]? =
        some (with_call bb (to_u32 (rnd (st.pos + 2 * i + 1) % cfg.MAP_SIZE))) ∧
      (with_call bb (to_u32 (rnd (st.pos + 2 * i + 1) % cfg.MAP_SIZE))).stmts =
        trace_call (to_u32 (rnd (st.pos + 2 * i + 1) % cfg.MAP_SIZE)) :: bb.stmts := by
  have hl := loop_ratio_100 cfg rnd fn.blocks st h
  refine ⟨?_, ?_, ?_⟩
  · exact loop_length _ _ _
  · exact hl.1
  · intro i bb hi
    exact ⟨hl.2 i bb hi, rfl⟩

/-- C1 on the four-block function in a fresh process. -/
theorem coverage_complete_at_ratio_100_witness :
    demo_start.globals.inst_ratio = 100 ∧
    (execute demo_cfg demo_env demo_rnd demo_fn demo_start).fn.blocks.length = 4 ∧
    calls_added demo_fn.blocks (execute demo_cfg demo_env demo_rnd demo_fn demo_start).fn.blocks
      = 4 :=
  ⟨by decide,
   (coverage_complete_at_ratio_100 demo_cfg demo_env demo_rnd demo_fn demo_start (by decide)).1,
   (coverage_complete_at_ratio_100 demo_cfg demo_env demo_rnd demo_fn demo_start (by decide)).2.1⟩

/-- C2 (selection rule).  For block number `i` of the function, let `s` be the
sample `R(100)` drawn in the state in which the loop reaches that block.  Then
`s < 100`; if `s ≥ inst_ratio` the block of the result is the block as it was
and the generator moved by one draw; if `s < inst_ratio` the block of the
result is the block with a tracing call in front and the generator moved by
two draws (the sample and the identifier); and so the block is instrumented
exactly when `s < inst_ratio`, left alone exactly when `s ≥ inst_ratio`.  This
holds for every ratio, in particular for 1 to 100. -/
theorem selection_rule (cfg : Config) (env : Env) (rnd : Nat → Nat) (fn : function σ)
    (st : PassState) (i : Nat) (bb : basic_block σ) (h : fn.blocks[i]? = some bb) :
    sample_at cfg rnd fn.blocks st i = rnd (state_at cfg rnd fn.blocks st i).pos % 100 ∧
    sample_at cfg rnd fn.blocks st i < 100 ∧
    (st.globals.inst_ratio ≤ sample_at cfg rnd fn.blocks st i →
      (execute cfg env rnd fn st).fn.blocks[i]? = some bb ∧
      (state_at cfg rnd fn.blocks st (i + 1)).pos = (state_at cfg rnd fn.blocks st i).pos + 1) ∧
    (sample_at cfg rnd fn.blocks st i < st.globals.inst_ratio →
      (execute cfg env rnd fn st).fn.blocks[i]? = some (with_call bb
        (to_u32 (rnd ((state_at cfg rnd fn.blocks st i).pos + 1) % cfg.MAP_SIZE))) ∧
      (state_at cfg rnd fn.blocks st (i + 1)).pos = (state_at cfg rnd fn.blocks st i).pos + 2) ∧
    ((∃ loc, (execute cfg env rnd fn st).fn.blocks[i]? = some (with_call bb loc)) ↔
      sample_at cfg rnd fn.blocks st i < st.globals.inst_ratio) ∧
    ((execute cfg env rnd fn st).fn.blocks[i]? = some bb ↔
      st.globals.inst_ratio ≤ sample_at cfg rnd fn.blocks st i) := by
  obtain ⟨h1, h2, h3⟩ := block_outcome cfg env rnd fn st i bb h
  refine ⟨rfl, h1, h2, h3, ?_, ?_⟩
  · constructor
    · rintro ⟨loc, hloc⟩
      by_contra hn
      have hb := (h2 (Nat.le_of_not_lt hn)).1
      rw [hloc] at hb
      exact with_call_ne bb loc (Option.some.inj hb)
    · intro hlt
      exact ⟨_, (h3 hlt).1⟩
  · constructor
    · intro hb
      by_contra hn
      have hc := (h3 (Nat.lt_of_not_le hn)).1
      rw [hb] at hc
      exact with_call_ne bb _ (Option.some.inj hc).symm
    · intro hge
      exact (h2 hge).1

/-- C2 at ratio 60 on the four-block function: the second block draws the
sample 78 and is left as it was. -/
theorem selection_rule_witness :
    demo_fn.blocks[1]? = some (demo_bb 3 4 []) ∧
    sample_at demo_cfg sparse_rnd demo_fn.blocks ratio60_start 1 = 78 ∧
    ((execute demo_cfg demo_env sparse_rnd demo_fn ratio60_start).fn.blocks[1]? =
        some (demo_bb 3 4 []) ↔
      ratio60_start.globals.inst_ratio ≤
        sample_at demo_cfg sparse_rnd demo_fn.blocks ratio60_start 1) :=
  ⟨by decide, by decide,
   (selection_rule demo_cfg demo_env sparse_rnd demo_fn ratio60_start 1 (demo_bb 3 4 [])
      (by decide)).2.2.2.2.2⟩

/-- C3 (additive-only mutation, topology preserved).  For every function, ratio
and stream of generator outputs, `execute` leaves the entry and exit blocks and
the number of blocks as they were, and block number `i` of the result has the
index and the edges of block number `i` of the function; its statements are
the statements that were there, or exactly one tracing call followed by them;
the last statement of a block that had one is unchanged; no block grows by more
than one statement. -/
theorem additive_only (cfg : Config) (env : Env) (rnd : Nat → Nat) (fn : function σ)
    (st : PassState) :
    (execute cfg env rnd fn st).fn.ENTRY_BLOCK = fn.ENTRY_BLOCK ∧
    (execute cfg env rnd fn st).fn.EXIT_BLOCK = fn.EXIT_BLOCK ∧
    (execute cfg env rnd fn st).fn.blocks.length = fn.blocks.length ∧
    ∀ (i : Nat) (bb : basic_block σ), fn.blocks[i]? = some bb →
      ∃ bb2 : basic_block σ, (execute cfg env rnd fn st).fn.blocks[i]? = some bb2 ∧
        bb2.index = bb.index ∧ bb2.preds = bb.preds ∧ bb2.succs = bb.succs ∧
        (bb2.stmts = bb.stmts ∨ ∃ loc, bb2.stmts = trace_call loc :: bb.stmts) ∧
        (bb.stmts ≠ [] → bb2.stmts.getLast? = bb.stmts.getLast?) ∧
        bb2.stmts.length ≤ bb.stmts.length + 1 := by
  refine ⟨rfl, rfl, loop_length _ _ _, ?_⟩
  intro i bb hi
  have hg := loop_get (instrument_bb cfg rnd) fn.blocks st i bb hi
  refine ⟨_, hg, ?_⟩
  rcases instrument_bb_cases cfg rnd bb
      (FOR_EACH_BB_FN (instrument_bb cfg rnd) (fn.blocks.take i) st).2 with hc | hc
  · rw [hc]
    exact ⟨rfl, rfl, rfl, Or.inl rfl, fun _ => rfl, Nat.le_succ _⟩
  · rw [hc]
    refine ⟨rfl, rfl, rfl, Or.inr ⟨_, rfl⟩, ?_, ?_⟩
    · intro hne
      simp only [with_call]
      cases hs : bb.stmts with
      | nil => exact absurd hs hne
      | cons x xs => exact List.getLast?_cons_cons
    · simp [with_call]

/-- C3 on the four-block function at ratio 60: four blocks before and after,
entry block untouched. -/
theorem additive_only_witness :
    (execute demo_cfg demo_env sparse_rnd demo_fn ratio60_start).fn.ENTRY_BLOCK =
      demo_fn.ENTRY_BLOCK ∧
    (execute demo_cfg demo_env sparse_rnd demo_fn ratio60_start).fn.blocks.length = 4 :=
  ⟨(additive_only demo_cfg demo_env sparse_rnd demo_fn ratio60_start).1,
   (additive_only demo_cfg demo_env sparse_rnd demo_fn ratio60_start).2.2.1⟩

/-- C4 (identifier range).  With `MAP_SIZE > 0`: whenever block number `i` of
the result differs from block number `i` of the function, it is that block
with one call to `__afl_trace` in front, the call has exactly one argument, the
argument is an integer constant `id` with `id < MAP_SIZE`, and `id` is the
value `R(MAP_SIZE)` drawn for that block, right after its sample. -/
theorem identifier_range (cfg : Config) (env : Env) (rnd : Nat → Nat) (fn : function σ)
    (st : PassState) (i : Nat) (bb bb2 : basic_block σ) (hM : 0 < cfg.MAP_SIZE)
    (h : fn.blocks[i]? = some bb)
    (h2 : (execute cfg env rnd fn st).fn.blocks[i]? = some bb2) (hne : bb2 ≠ bb) :
    ∃ (id : Nat) (args : List int_cst),
      bb2.stmts = gimple.call afl_trace_decl args :: bb.stmts ∧
      afl_trace_decl.name = "__afl_trace" ∧
      args = [build_int_cst type_node.uint64_type_node id] ∧
      args.length = 1 ∧
      id < cfg.MAP_SIZE ∧
      id = to_u32 (R rnd ((state_at cfg rnd fn.blocks st i).pos + 1) cfg.MAP_SIZE).1 := by
  have hg := loop_get (instrument_bb cfg rnd) fn.blocks st i bb h
  have h3 : (FOR_EACH_BB_FN (instrument_bb cfg rnd) fn.blocks st).1[i]? = some bb2 := h2
  rw [hg] at h3
  have h4 := Option.some.inj h3
  rcases instrument_bb_cases cfg rnd bb
      (FOR_EACH_BB_FN (instrument_bb cfg rnd) (fn.blocks.take i) st).2 with hc | hc
  · rw [hc] at h4
    exact absurd h4.symm hne
  · rw [hc] at h4
    refine ⟨_, _, ?_, rfl, rfl, rfl, ?_, rfl⟩
    · rw [← h4]
      rfl
    · exact lt_of_le_of_lt (Nat.mod_le _ _) (Nat.mod_lt _ hM)

/-- C4 on the first block of the four-block function at ratio 100: the
identifier is 106. -/
theorem identifier_range_witness :
    0 < demo_cfg.MAP_SIZE ∧
    ∃ (id : Nat) (args : List int_cst),
      (with_call (demo_bb 2 3 [10, 11]) 106).stmts =
        gimple.call afl_trace_decl args :: (demo_bb 2 3 [10, 11]).stmts ∧
      afl_trace_decl.name = "__afl_trace" ∧
      args = [build_int_cst type_node.uint64_type_node id] ∧
      args.length = 1 ∧
      id < demo_cfg.MAP_SIZE ∧
      id = to_u32 (R demo_rnd ((state_at demo_cfg demo_rnd demo_fn.blocks demo_start 0).pos + 1)
        demo_cfg.MAP_SIZE).1 :=
  ⟨by decide,
   identifier_range demo_cfg demo_env demo_rnd demo_fn demo_start 0 (demo_bb 2 3 [10, 11])
     (with_call (demo_bb 2 3 [10, 11]) 106) (by decide) (by decide) (by decide) (by decide)⟩

end Claims

/-! ## The counter and the report -/

section Counter

variable {σ : Type}

theorem to_i32_of_range (x : Int) (h1 : -2 ^ 31 ≤ x) (h2 : x < 2 ^ 31) : to_i32 x = x := by
  unfold to_i32
  omega

/-- No run of the loop adds more statements than there are blocks. -/
theorem loop_added_le (cfg : Config) (rnd : Nat → Nat) (blocks : List (basic_block σ))
    (st : PassState) :
    calls_added blocks (FOR_EACH_BB_FN (instrument_bb cfg rnd) blocks st).1 ≤ blocks.length := by
  induction blocks generalizing st with
  | nil => simp [loop_nil, calls_added]
  | cons bb rest ih =>
    rw [loop_cons]
    rcases Nat.lt_or_ge (rnd st.pos % 100) st.globals.inst_ratio with h | h
    · rw [instrument_bb_hit cfg rnd bb st h]
      have := ih { globals := { st.globals with
        inst_blocks := to_i32 (st.globals.inst_blocks + 1) }, pos := st.pos + 2 }
      simp only [calls_added, List.length_cons, with_call] at this ⊢
      omega
    · rw [instrument_bb_skip cfg rnd bb st h]
      have := ih { st with pos := st.pos + 1 }
      simp only [calls_added, List.length_cons]
      omega

/-- As long as the `int` does not overflow, the loop adds to the counter the
number of statements it adds to the blocks. -/
theorem loop_counter (cfg : Config) (rnd : Nat → Nat) (blocks : List (basic_block σ))
    (st : PassState) (hlo : -2 ^ 31 ≤ st.globals.inst_blocks)
    (hhi : st.globals.inst_blocks +
      (calls_added blocks (FOR_EACH_BB_FN (instrument_bb cfg rnd) blocks st).1 : Int) < 2 ^ 31) :
    (FOR_EACH_BB_FN (instrument_bb cfg rnd) blocks st).2.globals.inst_blocks =
      st.globals.inst_blocks +
        (calls_added blocks (FOR_EACH_BB_FN (instrument_bb cfg rnd) blocks st).1 : Int) := by
  induction blocks generalizing st with
  | nil => simp [loop_nil, calls_added]
  | cons bb rest ih =>
    rw [loop_cons] at hhi ⊢
    rcases Nat.lt_or_ge (rnd st.pos % 100) st.globals.inst_ratio with h | h
    · rw [instrument_bb_hit cfg rnd bb st h] at hhi ⊢
      simp only [calls_added, with_call, List.length_cons] at hhi ⊢
      have e : bb.stmts.length + 1 - bb.stmts.length = 1 := by omega
      rw [e] at hhi ⊢
      push_cast at hhi ⊢
      have hw : to_i32 (st.globals.inst_blocks + 1) = st.globals.inst_blocks + 1 :=
        to_i32_of_range _ (by omega) (by omega)
      rw [hw] at hhi ⊢
      have := ih { globals := { st.globals with inst_blocks := st.globals.inst_blocks + 1 },
                   pos := st.pos + 2 } (by simp only; omega) (by simp only; omega)
      simp only at this
      rw [this]
      omega
    · rw [instrument_bb_skip cfg rnd bb st h] at hhi ⊢
      simp only [calls_added] at hhi ⊢
      have e : bb.stmts.length - bb.stmts.length = 0 := by omega
      rw [e] at hhi ⊢
      push_cast at hhi ⊢
      have := ih { st with pos := st.pos + 1 } hlo (by simp only; omega)
      simp only at this
      rw [this]
      omega

/-- When every sample reaches the ratio the loop changes nothing but the
generator position. -/
theorem loop_all_skipped (cfg : Config) (rnd : Nat → Nat) (blocks : List (basic_block σ))
    (st : PassState)
    (h : ∀ i, i < blocks.length → st.globals.inst_ratio ≤ rnd (st.pos + i) % 100) :
    FOR_EACH_BB_FN (instrument_bb cfg rnd) blocks st =
      (blocks, { st with pos := st.pos + blocks.length }) := by
  induction blocks generalizing st with
  | nil => simp [loop_nil]
  | cons bb rest ih =>
    have h0 := h 0 (by simp)
    rw [Nat.add_zero] at h0
    rw [loop_cons, instrument_bb_skip cfg rnd bb st h0]
    have := ih { st with pos := st.pos + 1 } (by
      intro i hi
      have := h (i + 1) (by simp; omega)
      simpa [Nat.add_assoc, Nat.add_comm 1 i] using this)
    simp only at this
    rw [this]
    simp [Nat.add_assoc, Nat.add_comm 1]

theorem calls_added_self (blocks : List (basic_block σ)) : calls_added blocks blocks = 0 := by
  induction blocks with
  | nil => rfl
  | cons bb rest ih => simp [calls_added, ih]

end Counter

/-! ## Reporting, return value, counter -/

section Reporting

variable {σ : Type}

/-- The counter over a run of the host on several functions, as long as the
`int` does not overflow. -/
theorem execute_all_counter (cfg : Config) (env : Env) (rnd : Nat → Nat)
    (fns : List (function σ)) (st : PassState) (hlo : -2 ^ 31 ≤ st.globals.inst_blocks)
    (hhi : st.globals.inst_blocks +
      (total_added fns (execute_all cfg env rnd fns st).1 : Int) < 2 ^ 31) :
    (execute_all cfg env rnd fns st).2.globals.inst_blocks =
      st.globals.inst_blocks + (total_added fns (execute_all cfg env rnd fns st).1 : Int) := by
  induction fns generalizing st with
  | nil => simp [execute_all, total_added]
  | cons fn rest ih =>
    simp only [execute_all, total_added] at hhi ⊢
    push_cast at hhi ⊢
    have hc := loop_counter cfg rnd fn.blocks st hlo (by
      have : (execute cfg env rnd fn st).fn.blocks =
        (FOR_EACH_BB_FN (instrument_bb cfg rnd) fn.blocks st).1 := rfl
      rw [this] at hhi
      omega)
    have hs : (execute cfg env rnd fn st).state.globals.inst_blocks =
        st.globals.inst_blocks + (calls_added fn.blocks (execute cfg env rnd fn st).fn.blocks : Int) :=
      hc
    have := ih (execute cfg env rnd fn st).state (by rw [hs]; omega) (by rw [hs]; omega)
    rw [this, hs]
    omega

/-- The report is made from the globals as the loop leaves them. -/
theorem execute_out (cfg : Config) (env : Env) (rnd : Nat → Nat) (fn : function σ)
    (st : PassState) :
    (execute cfg env rnd fn st).out = report env (execute cfg env rnd fn st).state.globals := rfl

theorem or_and_left (a b c : Nat) : has_flag (a ||| b ||| c) a := by
  unfold has_flag
  apply Nat.eq_of_testBit_eq
  intro i
  simp only [Nat.testBit_and, Nat.testBit_or]
  cases a.testBit i <;> simp

theorem or_and_mid (a b c : Nat) : has_flag (a ||| b ||| c) b := by
  unfold has_flag
  apply Nat.eq_of_testBit_eq
  intro i
  simp only [Nat.testBit_and, Nat.testBit_or]
  cases b.testBit i <;> simp

theorem or_and_right (a b c : Nat) : has_flag (a ||| b ||| c) c := by
  unfold has_flag
  apply Nat.eq_of_testBit_eq
  intro i
  simp only [Nat.testBit_and, Nat.testBit_or]
  cases c.testBit i <;> simp

/-- C7, as stated, fails: in a process that is not quiet, after the four-block
function was instrumented, `execute` on a function with no block inserts
nothing and emits the summary with the running count, not the warning. -/
theorem no_warning_after_instrumented_function :
    (execute demo_cfg demo_env demo_rnd demo_fn demo_start).state.globals.be_quiet = 0 ∧
    empty_fn.blocks.length = 0 ∧
    (execute demo_cfg demo_env demo_rnd empty_fn
        (execute demo_cfg demo_env demo_rnd demo_fn demo_start).state).fn = empty_fn ∧
    (execute demo_cfg demo_env demo_rnd empty_fn
        (execute demo_cfg demo_env demo_rnd demo_fn demo_start).state).out =
      [Msg.OKF "Instrumented 4 locations (non-hardened mode, ratio 100%)."] ∧
    (execute demo_cfg demo_env demo_rnd empty_fn
        (execute demo_cfg demo_env demo_rnd demo_fn demo_start).state).out ≠
      [Msg.WARNF "No instrumentation targets found."] := by
  decide

/-- C7, amended.  For every invocation of `execute` that is not quiet, on a
function with no block or on one in which every sample reaches the ratio: the
function is left as it was (zero calls inserted), the globals are unchanged,
`execute` returns 0, and the warning is emitted when the running counter
`inst_blocks` is zero on entry; when it is not (earlier functions of the process
were instrumented) the summary with the running count is emitted instead. -/
theorem zero_block_reporting (cfg : Config) (env : Env) (rnd : Nat → Nat) (fn : function σ)
    (st : PassState) (hq : st.globals.be_quiet = 0)
    (hz : ∀ i, i < fn.blocks.length → st.globals.inst_ratio ≤ rnd (st.pos + i) % 100) :
    (execute cfg env rnd fn st).fn = fn ∧
    calls_added fn.blocks (execute cfg env rnd fn st).fn.blocks = 0 ∧
    (execute cfg env rnd fn st).state.globals = st.globals ∧
    (execute cfg env rnd fn st).ret = 0 ∧
    (st.globals.inst_blocks = 0 →
      (execute cfg env rnd fn st).out = [Msg.WARNF "No instrumentation targets found."]) ∧
    (st.globals.inst_blocks ≠ 0 →
      (execute cfg env rnd fn st).out =
        [Msg.OKF ("Instrumented " ++ fmt_u_int st.globals.inst_blocks ++ " locations (" ++
          (if env.AFL_HARDEN.isSome then "hardened" else "non-hardened") ++
          " mode, ratio " ++ fmt_u st.globals.inst_ratio ++ "%).")]) := by
  have hl := loop_all_skipped cfg rnd fn.blocks st hz
  have hf : (execute cfg env rnd fn st).fn = fn := by
    simp only [execute]
    rw [hl]
  have hg : (execute cfg env rnd fn st).state.globals = st.globals := by
    simp only [execute]
    rw [hl]
  refine ⟨hf, ?_, hg, rfl, ?_, ?_⟩
  · rw [hf]
    exact calls_added_self _
  · intro hc
    rw [execute_out, hg]
    simp [report, hq, hc]
  · intro hc
    rw [execute_out, hg]
    simp [report, hq, hc]

/-- C7 amended, on the four-block function at ratio 1 with samples 50, 64, 78,
92: nothing is inserted and the warning is emitted. -/
theorem zero_block_reporting_witness :
    ratio1_start.globals.be_quiet = 0 ∧
    (∀ i, i < demo_fn.blocks.length →
      ratio1_start.globals.inst_ratio ≤ sparse_rnd (ratio1_start.pos + i) % 100) ∧
    (execute demo_cfg demo_env sparse_rnd demo_fn ratio1_start).fn = demo_fn ∧
    (execute demo_cfg demo_env sparse_rnd demo_fn ratio1_start).out =
      [Msg.WARNF "No instrumentation targets found."] :=
  ⟨by decide, by decide,
   (zero_block_reporting demo_cfg demo_env sparse_rnd demo_fn ratio1_start (by decide)
      (by decide)).1,
   (zero_block_reporting demo_cfg demo_env sparse_rnd demo_fn ratio1_start (by decide)
      (by decide)).2.2.2.2.1 (by decide)⟩

end Reporting

section Report

variable {σ : Type}

/-- C8 (reporting rule).  After the loop, `execute` emits nothing when
`be_quiet` is set; otherwise it emits the warning exactly when the counter
`inst_blocks` is zero after the loop, and otherwise one summary made of the
counter value, the label ("hardened" when `AFL_HARDEN` is set, "non-hardened"
when not) and the configured ratio.  A four-block function at ratio 100, with
the counter zero on entry and not quiet, reports
"Instrumented 4 locations (<label> mode, ratio 100%).". -/
theorem reporting_rule (cfg : Config) (env : Env) (rnd : Nat → Nat) (fn : function σ)
    (st : PassState) :
    (st.globals.be_quiet ≠ 0 → (execute cfg env rnd fn st).out = []) ∧
    (st.globals.be_quiet = 0 → (execute cfg env rnd fn st).state.globals.inst_blocks = 0 →
      (execute cfg env rnd fn st).out = [Msg.WARNF "No instrumentation targets found."]) ∧
    (st.globals.be_quiet = 0 → (execute cfg env rnd fn st).state.globals.inst_blocks ≠ 0 →
      (execute cfg env rnd fn st).out =
        [Msg.OKF ("Instrumented " ++
          fmt_u_int (execute cfg env rnd fn st).state.globals.inst_blocks ++ " locations (" ++
          (if env.AFL_HARDEN.isSome then "hardened" else "non-hardened") ++
          " mode, ratio " ++ fmt_u st.globals.inst_ratio ++ "%).")]) ∧
    (fn.blocks.length = 4 →
      st.globals = { be_quiet := 0, inst_ratio := 100, inst_blocks := 0 } →
      (execute cfg env rnd fn st).out =
        [Msg.OKF ("Instrumented 4 locations (" ++
          (if env.AFL_HARDEN.isSome then "hardened" else "non-hardened") ++
          " mode, ratio 100%).")]) := by
  have hcfg := loop_config cfg rnd fn.blocks st
  have hq : (execute cfg env rnd fn st).state.globals.be_quiet = st.globals.be_quiet := hcfg.1
  have hr : (execute cfg env rnd fn st).state.globals.inst_ratio = st.globals.inst_ratio := hcfg.2
  refine ⟨?_, ?_, ?_, ?_⟩
  · intro h
    rw [execute_out]
    simp [report, hq, h]
  · intro h hc
    rw [execute_out]
    simp [report, hq, h, hc]
  · intro h hc
    rw [execute_out]
    simp [report, hq, hr, h, hc]
  · intro h4 hg
    have hratio : st.globals.inst_ratio = 100 := by rw [hg]
    have hzero : st.globals.inst_blocks = 0 := by rw [hg]
    have hquiet : st.globals.be_quiet = 0 := by rw [hg]
    have hadd := (loop_ratio_100 cfg rnd fn.blocks st hratio).1
    have hcount := loop_counter cfg rnd fn.blocks st (by rw [hzero]; decide)
      (by rw [hzero, hadd, h4]; decide)
    rw [hzero, hadd, h4] at hcount
    have hc : (execute cfg env rnd fn st).state.globals.inst_blocks = 4 := by
      simpa using hcount
    rw [execute_out]
    unfold report
    rw [hq, hr, hc, hquiet, hratio]
    cases env.AFL_HARDEN with
    | none => decide
    | some v =>
      simp only [Option.isSome_some, if_true]
      decide

/-- C8 on the four-block function in a fresh process with `AFL_HARDEN` unset. -/
theorem reporting_rule_witness :
    demo_fn.blocks.length = 4 ∧
    demo_start.globals = { be_quiet := 0, inst_ratio := 100, inst_blocks := 0 } ∧
    (execute demo_cfg demo_env demo_rnd demo_fn demo_start).out =
      [Msg.OKF "Instrumented 4 locations (non-hardened mode, ratio 100%)."] :=
  ⟨by decide, by decide,
   (reporting_rule demo_cfg demo_env demo_rnd demo_fn demo_start).2.2.2 (by decide) (by decide)⟩

/-- C9, as stated, fails: on the four-block function the value `execute`
returns has none of the three flags set. -/
theorem execute_returns_no_flag :
    (execute demo_cfg demo_env demo_rnd demo_fn demo_start).ret = 0 ∧
    ¬ has_flag (execute demo_cfg demo_env demo_rnd demo_fn demo_start).ret
        gcc_flags.TODO_update_ssa ∧
    ¬ has_flag (execute demo_cfg demo_env demo_rnd demo_fn demo_start).ret
        gcc_flags.TODO_verify_all ∧
    ¬ has_flag (execute demo_cfg demo_env demo_rnd demo_fn demo_start).ret
        gcc_flags.TODO_cleanup_cfg := by
  decide

/-- C9, amended.  For every function, `execute` returns 0; the three flags
(`TODO_update_ssa`, `TODO_verify_all`, `TODO_cleanup_cfg`) are all set in
`todo_flags_finish` of `my_pass_data`, the descriptor the pass is built with,
whatever values the host gives the three macros. -/
theorem repair_flags_in_pass_data (F : TodoFlags) (cfg : Config) (env : Env) (rnd : Nat → Nat)
    (fn : function σ) (st : PassState) :
    (execute cfg env rnd fn st).ret = 0 ∧
    has_flag (my_pass_data F).todo_flags_finish F.TODO_update_ssa ∧
    has_flag (my_pass_data F).todo_flags_finish F.TODO_verify_all ∧
    has_flag (my_pass_data F).todo_flags_finish F.TODO_cleanup_cfg :=
  ⟨rfl, or_and_left _ _ _, or_and_mid _ _ _, or_and_right _ _ _⟩

/-- C10 (counter accounting).  For every function with N blocks, every ratio,
every stream of generator outputs and every value `c` of the `int` counter on
entry, as long as the counter does not overflow: after `execute` the counter
is `c + k`, where `k` is the number of statements added to the function and
`k ≤ N`; the counter is not decreased; it starts at zero; and after the host
has run the pass on any sequence of functions, starting from zero, it equals
the number of statements added to all of them. -/
theorem counter_accounting (cfg : Config) (env : Env) (rnd : Nat → Nat) (fn : function σ)
    (st : PassState) (hlo : -2 ^ 31 ≤ st.globals.inst_blocks)
    (hhi : st.globals.inst_blocks +
      (calls_added fn.blocks (execute cfg env rnd fn st).fn.blocks : Int) < 2 ^ 31) :
    (execute cfg env rnd fn st).state.globals.inst_blocks =
      st.globals.inst_blocks +
        (calls_added fn.blocks (execute cfg env rnd fn st).fn.blocks : Int) ∧
    calls_added fn.blocks (execute cfg env rnd fn st).fn.blocks ≤ fn.blocks.length ∧
    st.globals.inst_blocks ≤ (execute cfg env rnd fn st).state.globals.inst_blocks ∧
    Globals.start.inst_blocks = 0 ∧
    ∀ (fns : List (function σ)) (s0 : PassState), s0.globals.inst_blocks = 0 →
      (total_added fns (execute_all cfg env rnd fns s0).1 : Int) < 2 ^ 31 →
      (execute_all cfg env rnd fns s0).2.globals.inst_blocks =
        (total_added fns (execute_all cfg env rnd fns s0).1 : Int) := by
  have hc : (execute cfg env rnd fn st).state.globals.inst_blocks =
      st.globals.inst_blocks +
        (calls_added fn.blocks (execute cfg env rnd fn st).fn.blocks : Int) :=
    loop_counter cfg rnd fn.blocks st hlo hhi
  refine ⟨hc, loop_added_le cfg rnd fn.blocks st, ?_, rfl, ?_⟩
  · rw [hc]
    omega
  · intro fns s0 h0 htot
    have := execute_all_counter cfg env rnd fns s0 (by rw [h0]; decide) (by rw [h0]; omega)
    rw [this, h0]
    omega

/-- C10 on the four-block function at ratio 60 with the counter at 7 on entry:
two statements are added and the counter ends at 9. -/
theorem counter_accounting_witness :
    (execute demo_cfg demo_env sparse_rnd demo_fn
      { globals := { be_quiet := 0, inst_ratio := 60, inst_blocks := 7 }, pos := 0 }
      ).state.globals.inst_blocks =
    7 + (calls_added demo_fn.blocks (execute demo_cfg demo_env sparse_rnd demo_fn
      { globals := { be_quiet := 0, inst_ratio := 60, inst_blocks := 7 }, pos := 0 }
      ).fn.blocks : Int) ∧
    calls_added demo_fn.blocks (execute demo_cfg demo_env sparse_rnd demo_fn
      { globals := { be_quiet := 0, inst_ratio := 60, inst_blocks := 7 }, pos := 0 }
      ).fn.blocks = 2 :=
  ⟨(counter_accounting demo_cfg demo_env sparse_rnd demo_fn
      { globals := { be_quiet := 0, inst_ratio := 60, inst_blocks := 7 }, pos := 0 }
      (by decide) (by decide)).1, by decide⟩

end Report

/-! ## Validation of `AFL_INST_RATIO` -/

section Validation

/-- With a compatible host and the variable set, `plugin_init` is decided by
what `sscanf` returns and stores. -/
theorem plugin_init_set (cfg : Config) (env : Env) (g : Globals) (str : String)
    (hv : env.version_check = true) (hs : env.inst_ratio_str = some str) :
    (((sscanf_u str g.inst_ratio).1 ≠ 1 ∨ (sscanf_u str g.inst_ratio).2 = 0 ∨
        100 < (sscanf_u str g.inst_ratio).2) →
      plugin_init cfg env g =
        Except.error "Bad value of AFL_INST_RATIO (must be between 1 and 100)") ∧
    (¬ ((sscanf_u str g.inst_ratio).1 ≠ 1 ∨ (sscanf_u str g.inst_ratio).2 = 0 ∨
        100 < (sscanf_u str g.inst_ratio).2) →
      ∃ q out, plugin_init cfg env g =
        Except.ok ({ be_quiet := q, inst_ratio := (sscanf_u str g.inst_ratio).2,
                     inst_blocks := g.inst_blocks }, out)) := by
  by_cases ht : env.isatty2 = true ∧ env.AFL_QUIET = none
  · constructor
    · intro hbad
      simp [plugin_init, hv, hs, ht, hbad]
    · intro hgood
      exact ⟨g.be_quiet, [Msg.SAYF ("afl-gcc-pass " ++ cfg.VERSION ++ " by <aseipp@pobox.com>\n")],
        by simp [plugin_init, hv, hs, ht, hgood]⟩
  · constructor
    · intro hbad
      simp [plugin_init, hv, hs, ht, hbad]
    · intro hgood
      exact ⟨1, [], by simp [plugin_init, hv, hs, ht, hgood]⟩

/-- With the variable unset, `plugin_init` on a compatible host succeeds and
leaves the ratio as it was. -/
theorem plugin_init_unset (cfg : Config) (env : Env) (g : Globals)
    (hv : env.version_check = true) (hs : env.inst_ratio_str = none) :
    ∃ q out, plugin_init cfg env g =
      Except.ok ({ be_quiet := q, inst_ratio := g.inst_ratio, inst_blocks := g.inst_blocks },
        out) := by
  by_cases ht : env.isatty2 = true ∧ env.AFL_QUIET = none
  · exact ⟨g.be_quiet, [Msg.SAYF ("afl-gcc-pass " ++ cfg.VERSION ++ " by <aseipp@pobox.com>\n")],
      by simp [plugin_init, hv, hs, ht]⟩
  · exact ⟨1, [], by simp [plugin_init, hv, hs, ht]⟩

/-- The decimal strings "1" to "100" are read back as the numbers they denote. -/
theorem sscanf_u_repr : ∀ n, n < 101 → sscanf_u (Nat.repr n) 100 = (1, n) := by
  decide

end Validation

section ValidationClaims

theorem digit_not_space (c : Char) (h : isdigit c = true) : isspace c = false := by
  simp only [isdigit, Bool.and_eq_true, decide_eq_true_eq] at h
  simp only [isspace, Bool.or_eq_false_iff, Bool.and_eq_false_imp, decide_eq_false_iff_not,
    decide_eq_true_eq]
  omega

theorem digit_not_sign (c : Char) (h : isdigit c = true) : c ≠ '-' ∧ c ≠ '+' := by
  constructor
  · intro hc
    subst hc
    revert h
    decide
  · intro hc
    subst hc
    revert h
    decide

theorem takeWhile_stop (tail : List Char) (ht : ∀ c, tail.head? = some c → isdigit c = false) :
    tail.takeWhile isdigit = [] := by
  cases tail with
  | nil => rfl
  | cons t ts =>
    have := ht t rfl
    simp [List.takeWhile_cons, this]

/-- Whenever `plugin_init` succeeds from the static initial values, the ratio
it leaves is between 1 and 100. -/
theorem plugin_init_ratio_range (cfg : Config) (env : Env) (g : Globals) (out : List Msg)
    (h : plugin_init cfg env Globals.start = Except.ok (g, out)) :
    1 ≤ g.inst_ratio ∧ g.inst_ratio ≤ 100 := by
  cases hv : env.version_check with
  | false => simp [plugin_init, hv] at h
  | true =>
    cases hs : env.inst_ratio_str with
    | none =>
      obtain ⟨q, o, hq⟩ := plugin_init_unset cfg env Globals.start hv hs
      rw [hq] at h
      have hg := (Prod.mk.inj (Except.ok.inj h)).1
      rw [← hg]
      simp only [Globals.start]
      omega
    | some str =>
      by_cases hbad : (sscanf_u str Globals.start.inst_ratio).1 ≠ 1 ∨
          (sscanf_u str Globals.start.inst_ratio).2 = 0 ∨
          100 < (sscanf_u str Globals.start.inst_ratio).2
      · rw [(plugin_init_set cfg env Globals.start str hv hs).1 hbad] at h
        cases h
      · obtain ⟨q, o, hq⟩ := (plugin_init_set cfg env Globals.start str hv hs).2 hbad
        rw [hq] at h
        have hg := (Prod.mk.inj (Except.ok.inj h)).1
        rw [← hg]
        simp only
        omega

end ValidationClaims

section RatioClaims

/-- C5 (validation on the stated cases).  On a compatible host, from the static
initial values: with `AFL_INST_RATIO` set to "0", "101", "" or "abc",
`plugin_init` ends in the fatal error whose message starts
"Bad value of AFL_INST_RATIO"; with it set to the decimal string of a number
from 1 to 100, `plugin_init` succeeds and `inst_ratio` is that number; with it
unset, `plugin_init` succeeds and `inst_ratio` is 100. -/
theorem ratio_validation_cases (cfg : Config) (env : Env) (hv : env.version_check = true) :
    (∀ s, s ∈ ["0", "101", "", "abc"] → env.inst_ratio_str = some s →
      plugin_init cfg env Globals.start =
        Except.error ("Bad value of AFL_INST_RATIO" ++ " (must be between 1 and 100)")) ∧
    (∀ n, 1 ≤ n → n ≤ 100 → env.inst_ratio_str = some (Nat.repr n) →
      ∃ q out, plugin_init cfg env Globals.start =
        Except.ok ({ be_quiet := q, inst_ratio := n, inst_blocks := 0 }, out)) ∧
    (env.inst_ratio_str = none →
      ∃ q out, plugin_init cfg env Globals.start =
        Except.ok ({ be_quiet := q, inst_ratio := 100, inst_blocks := 0 }, out)) := by
  refine ⟨?_, ?_, ?_⟩
  · intro s hs he
    have hbad : (sscanf_u s Globals.start.inst_ratio).1 ≠ 1 ∨
        (sscanf_u s Globals.start.inst_ratio).2 = 0 ∨
        100 < (sscanf_u s Globals.start.inst_ratio).2 := by
      simp only [List.mem_cons, List.mem_singleton, List.mem_nil_iff, or_false] at hs
      rcases hs with h | h | h | h <;> subst h <;> decide
    exact (plugin_init_set cfg env Globals.start s hv he).1 hbad
  · intro n h1 h100 he
    have hr : sscanf_u (Nat.repr n) Globals.start.inst_ratio = (1, n) :=
      sscanf_u_repr n (by omega)
    have hgood : ¬ ((sscanf_u (Nat.repr n) Globals.start.inst_ratio).1 ≠ 1 ∨
        (sscanf_u (Nat.repr n) Globals.start.inst_ratio).2 = 0 ∨
        100 < (sscanf_u (Nat.repr n) Globals.start.inst_ratio).2) := by
      rw [hr]
      simp only [ne_eq, not_true_eq_false, false_or]
      omega
    obtain ⟨q, out, hq⟩ := (plugin_init_set cfg env Globals.start (Nat.repr n) hv he).2 hgood
    rw [hr] at hq
    exact ⟨q, out, hq⟩
  · intro he
    exact plugin_init_unset cfg env Globals.start hv he

/-- C5 with `AFL_INST_RATIO=0`. -/
theorem ratio_validation_cases_witness :
    (ratio_env "0").version_check = true ∧
    plugin_init demo_cfg (ratio_env "0") Globals.start =
      Except.error "Bad value of AFL_INST_RATIO (must be between 1 and 100)" :=
  ⟨rfl, (ratio_validation_cases demo_cfg (ratio_env "0") rfl).1 "0" (by decide) rfl⟩

/-- C6, as stated, fails: with `AFL_INST_RATIO=50abc`, a string with
non-numeric trailing characters, `plugin_init` raises no error and sets the
ratio to 50. -/
theorem trailing_characters_accepted :
    plugin_init demo_cfg (ratio_env "50abc") Globals.start =
      Except.ok ({ be_quiet := 0, inst_ratio := 50, inst_blocks := 0 },
        [Msg.SAYF "afl-gcc-pass 2.52b by <aseipp@pobox.com>\n"]) ∧
    plugin_init demo_cfg (ratio_env "50abc") Globals.start ≠
      Except.error "Bad value of AFL_INST_RATIO (must be between 1 and 100)" := by
  decide
/-- The scan of a string that is white space only: input ends before any
conversion. -/
theorem sscanf_u_blank (str : String) (dst : Nat)
    (hws : ∀ a ∈ str.toList, isspace a = true) : sscanf_u str dst = (-1, dst) := by
  have hdw : str.toList.dropWhile isspace = [] := List.dropWhile_eq_nil_iff.mpr hws
  unfold sscanf_u
  rw [hdw]

/-- The scan of a string made of white space `ws` and then `c :: rest`, where
`c` is not white space. -/
theorem sscanf_u_from (str : String) (ws : List Char) (c : Char) (rest : List Char) (dst : Nat)
    (hl : str.toList = ws ++ c :: rest)
    (hws : ∀ a ∈ ws, isspace a = true) (hc : isspace c = false) :
    sscanf_u str dst =
      if (if c = '-' ∨ c = '+' then rest else c :: rest).takeWhile isdigit = [] then (0, dst)
      else (1, to_u32 (strtoul_value (decide (c = '-'))
        (digits_value ((if c = '-' ∨ c = '+' then rest else c :: rest).takeWhile isdigit)))) := by
  have hdw : str.toList.dropWhile isspace = c :: rest := by
    rw [hl, List.dropWhile_append_of_pos hws]
    simp [List.dropWhile_cons, hc]
  unfold sscanf_u
  rw [hdw]

theorem digits_run (ds tail : List Char) (hd : ∀ c ∈ ds, isdigit c = true)
    (ht : ∀ c, tail.head? = some c → isdigit c = false) :
    (ds ++ tail).takeWhile isdigit = ds := by
  rw [List.takeWhile_append_of_pos hd, takeWhile_stop tail ht]
  simp

/-- The scan of white space, an optional sign, at least one digit, and a rest
that does not start with a digit: the digits are converted, the rest is not
looked at. -/
theorem sscanf_u_number (str : String) (ws sg ds tail : List Char) (dst : Nat)
    (hl : str.toList = ws ++ sg ++ ds ++ tail)
    (hws : ∀ a ∈ ws, isspace a = true) (hsg : sg = [] ∨ sg = ['+'] ∨ sg = ['-'])
    (hne : ds ≠ []) (hd : ∀ c ∈ ds, isdigit c = true)
    (ht : ∀ c, tail.head? = some c → isdigit c = false) :
    sscanf_u str dst = (1, to_u32 (strtoul_value (decide (sg = ['-'])) (digits_value ds))) := by
  have hrun := digits_run ds tail hd ht
  rcases hsg with h | h | h
  · subst h
    cases ds with
    | nil => exact absurd rfl hne
    | cons d r =>
      have hdd : isdigit d = true := hd d (List.mem_cons_self _ _)
      obtain ⟨hm, hp⟩ := digit_not_sign d hdd
      have hl2 : str.toList = ws ++ d :: (r ++ tail) := by simpa using hl
      rw [sscanf_u_from str ws d (r ++ tail) dst hl2 hws (digit_not_space d hdd)]
      have hb : (if d = '-' ∨ d = '+' then r ++ tail else d :: (r ++ tail)) = (d :: r) ++ tail := by
        simp [hm, hp]
      rw [hb, hrun]
      simp [hm]
  · subst h
    have hl2 : str.toList = ws ++ '+' :: (ds ++ tail) := by simpa using hl
    rw [sscanf_u_from str ws '+' (ds ++ tail) dst hl2 hws (by decide)]
    simp [hrun, hne]
  · subst h
    have hl2 : str.toList = ws ++ '-' :: (ds ++ tail) := by simpa using hl
    rw [sscanf_u_from str ws '-' (ds ++ tail) dst hl2 hws (by decide)]
    simp [hrun, hne]

/-- The scan of white space and an optional sign with no digit after them:
nothing is converted. -/
theorem sscanf_u_no_number (str : String) (ws sg tail : List Char) (dst : Nat)
    (hl : str.toList = ws ++ sg ++ tail)
    (hws : ∀ a ∈ ws, isspace a = true) (hsg : sg = [] ∨ sg = ['+'] ∨ sg = ['-'])
    (ht : ∀ c, tail.head? = some c → isdigit c = false)
    (hbare : sg = [] → ∀ c, tail.head? = some c → isspace c = false ∧ c ≠ '+' ∧ c ≠ '-') :
    (sscanf_u str dst).1 ≠ 1 := by
  have hstop := takeWhile_stop tail ht
  rcases hsg with h | h | h
  · subst h
    cases tail with
    | nil =>
      have hall : ∀ a ∈ str.toList, isspace a = true := by
        rw [hl]; simpa using hws
      rw [sscanf_u_blank str dst hall]
      simp
    | cons t ts =>
      obtain ⟨hsp, hp, hm⟩ := hbare rfl t rfl
      have hl2 : str.toList = ws ++ t :: ts := by simpa using hl
      rw [sscanf_u_from str ws t ts dst hl2 hws hsp]
      simp [hm, hp, hstop]
  · subst h
    have hl2 : str.toList = ws ++ '+' :: tail := by simpa using hl
    rw [sscanf_u_from str ws '+' tail dst hl2 hws (by decide)]
    simp [hstop]
  · subst h
    have hl2 : str.toList = ws ++ '-' :: tail := by simpa using hl
    rw [sscanf_u_from str ws '-' tail dst hl2 hws (by decide)]
    simp [hstop]

theorem dropWhile_head_not (p : Char → Bool) (l : List Char) (c : Char) (rest : List Char)
    (h : l.dropWhile p = c :: rest) : p c = false := by
  have := List.head?_dropWhile_not p l
  rw [h] at this
  simpa using this

theorem dropWhile_stop (l : List Char) :
    ∀ c, (l.dropWhile isdigit).head? = some c → isdigit c = false := by
  intro c hc
  cases hX : l.dropWhile isdigit with
  | nil => rw [hX] at hc; simp at hc
  | cons x xs =>
    rw [hX] at hc
    simp at hc
    subst hc
    exact dropWhile_head_not isdigit l x xs hX

/-- A string on which the scan converts a number is white space, an optional
sign, at least one digit, and a rest that does not start with a digit. -/
theorem sscanf_u_shape (str : String) (dst : Nat) (h : (sscanf_u str dst).1 = 1) :
    ∃ ws sg ds tail : List Char, str.toList = ws ++ sg ++ ds ++ tail ∧
      (∀ a ∈ ws, isspace a = true) ∧ (sg = [] ∨ sg = ['+'] ∨ sg = ['-']) ∧ ds ≠ [] ∧
      (∀ c ∈ ds, isdigit c = true) ∧ (∀ c, tail.head? = some c → isdigit c = false) := by
  obtain ⟨ws, hsplit, hws⟩ : ∃ ws : List Char,
      ws ++ str.toList.dropWhile isspace = str.toList ∧ ∀ a ∈ ws, isspace a = true :=
    ⟨str.toList.takeWhile isspace, List.takeWhile_append_dropWhile isspace str.toList,
      fun a ha => List.mem_takeWhile_imp ha⟩
  cases hX : str.toList.dropWhile isspace with
  | nil =>
    have hall : ∀ a ∈ str.toList, isspace a = true := List.dropWhile_eq_nil_iff.mp hX
    rw [sscanf_u_blank str dst hall] at h
    simp at h
  | cons c rest =>
    have hc := dropWhile_head_not isspace str.toList c rest hX
    rw [hX] at hsplit
    rw [sscanf_u_from str ws c rest dst hsplit.symm hws hc] at h
    by_cases hm : c = '-'
    · subst hm
      simp only [true_or, if_true] at h
      refine ⟨ws, ['-'], rest.takeWhile isdigit, rest.dropWhile isdigit, ?_, hws, Or.inr (Or.inr rfl),
        ?_, fun a ha => List.mem_takeWhile_imp ha, dropWhile_stop rest⟩
      · rw [← hsplit]; simp
      · intro he
        rw [he] at h
        simp at h
    · by_cases hp : c = '+'
      · subst hp
        simp only [or_true, if_true] at h
        refine ⟨ws, ['+'], rest.takeWhile isdigit, rest.dropWhile isdigit, ?_, hws,
          Or.inr (Or.inl rfl), ?_, fun a ha => List.mem_takeWhile_imp ha, dropWhile_stop rest⟩
        · rw [← hsplit]; simp
        · intro he
          rw [he] at h
          simp at h
      · simp only [hm, hp, or_self, if_false] at h
        refine ⟨ws, [], (c :: rest).takeWhile isdigit, (c :: rest).dropWhile isdigit, ?_, hws,
          Or.inl rfl, ?_, fun a ha => List.mem_takeWhile_imp ha, dropWhile_stop (c :: rest)⟩
        · rw [← hsplit]; simp
        · intro he
          rw [he] at h
          simp at h

theorem stored_plain (n : Nat) (h : n < 2 ^ 32) : to_u32 (strtoul_value false n) = n := by
  unfold to_u32 strtoul_value
  have : ¬ 2 ^ 64 ≤ n := by omega
  simp only [this, if_false, Bool.false_eq_true]
  omega

theorem stored_minus (n : Nat) (h : n + 100 < 2 ^ 32) :
    to_u32 (strtoul_value true n) = 0 ∨ 100 < to_u32 (strtoul_value true n) := by
  unfold to_u32 strtoul_value
  have : ¬ 2 ^ 64 ≤ n := by omega
  simp only [this, if_false, if_true]
  omega

/-- From the static initial values, on a compatible host, with the variable
set: `plugin_init` is decided by what the scan returns and stores. -/
theorem plugin_init_start_set (cfg : Config) (env : Env) (str : String)
    (hv : env.version_check = true) (hs : env.inst_ratio_str = some str) :
    (((sscanf_u str 100).1 = 1 ∧ 1 ≤ (sscanf_u str 100).2 ∧ (sscanf_u str 100).2 ≤ 100) →
      ∃ q out, plugin_init cfg env Globals.start =
        Except.ok ({ be_quiet := q, inst_ratio := (sscanf_u str 100).2, inst_blocks := 0 },
          out)) ∧
    (¬ ((sscanf_u str 100).1 = 1 ∧ 1 ≤ (sscanf_u str 100).2 ∧ (sscanf_u str 100).2 ≤ 100) →
      plugin_init cfg env Globals.start =
        Except.error "Bad value of AFL_INST_RATIO (must be between 1 and 100)") := by
  have hset := plugin_init_set cfg env Globals.start str hv hs
  have e : Globals.start.inst_ratio = 100 := rfl
  have e2 : Globals.start.inst_blocks = 0 := rfl
  rw [e, e2] at hset
  constructor
  · intro hgood
    exact hset.2 (by
      rintro (h | h | h)
      · exact h hgood.1
      · omega
      · omega)
  · intro hbad
    exact hset.1 (by
      by_contra hn
      apply hbad
      refine ⟨?_, ?_, ?_⟩
      · by_contra h1
        exact hn (Or.inl h1)
      · by_contra h1
        exact hn (Or.inr (Or.inl (by omega)))
      · by_contra h1
        exact hn (Or.inr (Or.inr (by omega))))

/-- C6, amended.  Whenever `plugin_init` succeeds, `inst_ratio` is between 1
and 100, and the string given as `AFL_INST_RATIO`, if any, starts with an
integer string: optional white space, an optional sign, then at least one
decimal digit; when the sign is not a minus and the digits denote `n < 2^32`,
`inst_ratio` is `n` and `n` is in 1..100.  On a compatible host, what follows
the digits is not looked at: white space, no sign or a plus sign, digits
denoting `n < 2^32`, and any rest that does not start with a digit succeed with
ratio `n` when `1 ≤ n ≤ 100` and are the fatal error when `n = 0` or `n > 100`;
with a minus sign and `n + 100 < 2^32` they are the fatal error (so is "-5");
and a string with no digit after the white space and the optional sign is the
fatal error.  Digits denoting `2^32` or more are not covered. -/
theorem ratio_validation_general (cfg : Config) (env : Env) :
    (∀ g out, plugin_init cfg env Globals.start = Except.ok (g, out) →
      1 ≤ g.inst_ratio ∧ g.inst_ratio ≤ 100) ∧
    (∀ str g out, env.inst_ratio_str = some str →
      plugin_init cfg env Globals.start = Except.ok (g, out) →
      ∃ ws sg ds tail : List Char, str.toList = ws ++ sg ++ ds ++ tail ∧
        (∀ c ∈ ws, isspace c = true) ∧ (sg = [] ∨ sg = ['+'] ∨ sg = ['-']) ∧ ds ≠ [] ∧
        (∀ c ∈ ds, isdigit c = true) ∧ (∀ c, tail.head? = some c → isdigit c = false) ∧
        (sg ≠ ['-'] → digits_value ds < 2 ^ 32 →
          g.inst_ratio = digits_value ds ∧ 1 ≤ digits_value ds ∧ digits_value ds ≤ 100)) ∧
    (env.version_check = true →
      (∀ ws sg ds tail : List Char, (∀ c ∈ ws, isspace c = true) → (sg = [] ∨ sg = ['+']) →
        ds ≠ [] → (∀ c ∈ ds, isdigit c = true) →
        (∀ c, tail.head? = some c → isdigit c = false) →
        env.inst_ratio_str = some (String.mk (ws ++ sg ++ ds ++ tail)) →
        digits_value ds < 2 ^ 32 →
        ((1 ≤ digits_value ds ∧ digits_value ds ≤ 100) →
          ∃ q out, plugin_init cfg env Globals.start =
            Except.ok ({ be_quiet := q, inst_ratio := digits_value ds, inst_blocks := 0 }, out)) ∧
        ((digits_value ds = 0 ∨ 100 < digits_value ds) →
          plugin_init cfg env Globals.start =
            Except.error "Bad value of AFL_INST_RATIO (must be between 1 and 100)")) ∧
      (∀ ws ds tail : List Char, (∀ c ∈ ws, isspace c = true) →
        ds ≠ [] → (∀ c ∈ ds, isdigit c = true) →
        (∀ c, tail.head? = some c → isdigit c = false) →
        env.inst_ratio_str = some (String.mk (ws ++ ['-'] ++ ds ++ tail)) →
        digits_value ds + 100 < 2 ^ 32 →
        plugin_init cfg env Globals.start =
          Except.error "Bad value of AFL_INST_RATIO (must be between 1 and 100)") ∧
      (∀ ws sg tail : List Char, (∀ c ∈ ws, isspace c = true) →
        (sg = [] ∨ sg = ['+'] ∨ sg = ['-']) →
        (∀ c, tail.head? = some c → isdigit c = false) →
        (sg = [] → ∀ c, tail.head? = some c → isspace c = false ∧ c ≠ '+' ∧ c ≠ '-') →
        env.inst_ratio_str = some (String.mk (ws ++ sg ++ tail)) →
        plugin_init cfg env Globals.start =
          Except.error "Bad value of AFL_INST_RATIO (must be between 1 and 100)") ∧
      (env.inst_ratio_str = some "-5" →
        plugin_init cfg env Globals.start =
          Except.error "Bad value of AFL_INST_RATIO (must be between 1 and 100)")) := by
  refine ⟨fun g out h => plugin_init_ratio_range cfg env g out h, ?_, ?_⟩
  · intro str g out hs h
    cases hv : env.version_check with
    | false => simp [plugin_init, hv] at h
    | true =>
      have hk := plugin_init_start_set cfg env str hv hs
      by_cases hgood : (sscanf_u str 100).1 = 1 ∧ 1 ≤ (sscanf_u str 100).2 ∧
          (sscanf_u str 100).2 ≤ 100
      · obtain ⟨q, o, hq⟩ := hk.1 hgood
        rw [hq] at h
        have hg := (Prod.mk.inj (Except.ok.inj h)).1
        obtain ⟨ws, sg, ds, tail, hl, hws, hsg, hne, hd, ht⟩ := sscanf_u_shape str 100 hgood.1
        refine ⟨ws, sg, ds, tail, hl, hws, hsg, hne, hd, ht, ?_⟩
        intro hnm hlt
        have hscan := sscanf_u_number str ws sg ds tail 100 hl hws hsg hne hd ht
        have hdec : decide (sg = ['-']) = false := by simp [hnm]
        rw [hdec, stored_plain _ hlt] at hscan
        rw [hscan] at hgood
        rw [← hg, hscan]
        exact ⟨rfl, hgood.2.1, hgood.2.2⟩
      · rw [hk.2 hgood] at h
        cases h
  · intro hv
    refine ⟨?_, ?_, ?_, ?_⟩
    · intro ws sg ds tail hws hsg hne hd ht hs hlt
      have hk := plugin_init_start_set cfg env _ hv hs
      have hsg3 : sg = [] ∨ sg = ['+'] ∨ sg = ['-'] := by
        rcases hsg with h | h
        · exact Or.inl h
        · exact Or.inr (Or.inl h)
      have hdec : decide (sg = ['-']) = false := by
        rcases hsg with h | h <;> subst h <;> decide
      have hscan := sscanf_u_number (String.mk (ws ++ sg ++ ds ++ tail)) ws sg ds tail 100 rfl
        hws hsg3 hne hd ht
      rw [hdec, stored_plain _ hlt] at hscan
      rw [hscan] at hk
      constructor
      · intro hr
        exact hk.1 ⟨rfl, hr.1, hr.2⟩
      · intro hr
        exact hk.2 (by
          rintro ⟨-, h1, h2⟩
          simp only at h1 h2
          omega)
    · intro ws ds tail hws hne hd ht hs hlt
      have hk := plugin_init_start_set cfg env _ hv hs
      have hscan := sscanf_u_number (String.mk (ws ++ ['-'] ++ ds ++ tail)) ws ['-'] ds tail 100
        rfl hws (Or.inr (Or.inr rfl)) hne hd ht
      have hdec : decide (['-'] = ['-']) = true := by decide
      rw [hdec] at hscan
      rw [hscan] at hk
      have hst := stored_minus (digits_value ds) hlt
      exact hk.2 (by
        rintro ⟨-, h1, h2⟩
        simp only at h1 h2
        omega)
    · intro ws sg tail hws hsg ht hbare hs
      have hk := plugin_init_start_set cfg env _ hv hs
      have hno := sscanf_u_no_number (String.mk (ws ++ sg ++ tail)) ws sg tail 100 rfl hws hsg
        ht hbare
      exact hk.2 (fun hgood => hno hgood.1)
    · intro hs
      exact (plugin_init_start_set cfg env "-5" hv hs).2 (by decide)

/-- C6 amended, with `AFL_INST_RATIO=50abc`: no white space, no sign, the
digits "50", the rest "abc"; the ratio is 50. -/
theorem ratio_validation_general_witness :
    (ratio_env "50abc").version_check = true ∧
    (ratio_env "50abc").inst_ratio_str =
      some (String.mk ([] ++ [] ++ ['5', '0'] ++ ['a', 'b', 'c'])) ∧
    digits_value ['5', '0'] < 2 ^ 32 ∧
    ∃ q out, plugin_init demo_cfg (ratio_env "50abc") Globals.start =
      Except.ok ({ be_quiet := q, inst_ratio := digits_value ['5', '0'], inst_blocks := 0 },
        out) :=
  ⟨rfl, by decide, by decide,
   (((ratio_validation_general demo_cfg (ratio_env "50abc")).2.2 rfl).1 [] [] ['5', '0']
     ['a', 'b', 'c'] (by decide) (by decide) (by decide) (by decide) (by decide) (by decide)
     (by decide)).1 (by decide)⟩

end RatioClaims

end AflGccPass
